import Mathlib

/-!
Shallow embedding of `src/code.py` from prox-sensor-encoder-menu: a
CircuitPython sketch driving a serial-console menu from a Seesaw rotary
encoder, a VCNL4040 proximity/lux sensor, and a Neopixel LED.

The hardware peripherals are modelled as input traces: each `Poll` record
carries one reading of the encoder button (`click`), the encoder rotation
delta (`delta`), and the sensor values (`prox`, `lux`).  Console output is
modelled as the list of strings passed to `stdout.write`/`print`, and LED
output as the list of 3-byte colors passed to `neopixel_write`.  The
context dictionary of the Python code becomes the `Ctx` structure; the
menu's callable values become the `MenuAction` tags dispatched by
`runAction`.
-/

namespace ProxMenu

/-- A menu action value.  In the Python code the menu holds callable
objects (`showProx`, `showLux`, `setThresh`); `notCallable` stands for a
non-callable value that could be put in the menu by mistake (the case
`doAction` guards against). -/
inductive MenuAction where
  | showProx
  | showLux
  | setThresh
  | notCallable
deriving DecidableEq, Repr

/-- Python `callable(action)` for the values that can appear in the menu. -/
def callable : MenuAction → Bool
  | .notCallable => false
  | _ => true

/-- One entry of the navigation menu: `(name, callable object)`. -/
abbrev MenuItem := String × MenuAction

/-- The context dictionary from `main()`: the mutable fields shared by the
menu functions.  The hardware handles (`enc`, `vcnl`, `np`) are not state;
they are modelled by the input traces. -/
structure Ctx where
  menu : List MenuItem
  newline : Bool
  selection : Int
  threshold : Int
deriving DecidableEq, Repr

/-- One poll of the peripherals: encoder button state, encoder rotation
delta, and the sensor's proximity and lux readings at that instant. -/
structure Poll where
  click : Bool
  delta : Int
  prox : Int
  lux : Int
deriving DecidableEq, Repr

/-- A 3-byte GRB color written to the Neopixel. -/
abbrev LedColor := Nat × Nat × Nat

/-- Model of `updateNeopixel` (code.py lines 171-177): compare the current
proximity reading against the stored threshold and produce the single
color written to the LED. -/
def updateNeopixel (prox thresh : Int) : LedColor :=
  if prox ≥ thresh then (5, 0, 5) else (0, 0, 0)

/-- Model of `select(delta, ctx)` (code.py lines 179-186): move the menu selection
by `delta`, clamped into `0 .. len(menu)-1`. -/
def select (delta : Int) (ctx : Ctx) : Ctx :=
  { ctx with selection := max 0 (min ((ctx.menu.length : Int) - 1) (ctx.selection + delta)) }

/-- The click edge test used by every loop in code.py:
`(not click) and (click != prevClick)`. -/
def clickEdge (prevClick click : Bool) : Bool :=
  !click && (click != prevClick)

/-- Python `'% 6d' % x`: decimal with a blank for the sign of
non-negative numbers, right-aligned in a field of width 6. -/
def pyFmtSpace6 (x : Int) : String :=
  let s : String := (if x < 0 then "-" else " ") ++ toString x.natAbs
  (String.mk (List.replicate (6 - s.length) ' ')) ++ s

/-- Result of running one of the blocking action loops on a finite poll
trace: the context as left by the loop, the console writes, the LED
writes, whether the loop returned (saw a click edge) before the trace ran
out, and the polls it did not consume. -/
structure ActionResult where
  ctx : Ctx
  out : List String
  leds : List LedColor
  returned : Bool
  rest : List Poll
deriving DecidableEq, Repr

/-- The `while True` loop of `showProx` (code.py lines 97-108), one
iteration per poll.  Each iteration rewrites the proximity line, returns
on a pressed-to-released click edge, and otherwise updates the LED. -/
def showProxLoop (ctx : Ctx) (prevClick : Bool) : List Poll → ActionResult
  | [] => { ctx := ctx, out := [], leds := [], returned := false, rest := [] }
  | p :: ps =>
    let line := "\r proximity: " ++ pyFmtSpace6 p.prox ++ "  "
    if clickEdge prevClick p.click then
      { ctx := ctx, out := [line, "\n"], leds := [], returned := true, rest := ps }
    else
      let r := showProxLoop ctx p.click ps
      { ctx := r.ctx, out := line :: r.out,
        leds := updateNeopixel p.prox ctx.threshold :: r.leds,
        returned := r.returned, rest := r.rest }

/-- Model of `showProx(ctx)` (code.py lines 90-108): header line, then the polling
loop with `prevClick` initialized to `False`. -/
def showProx (ctx : Ctx) (polls : List Poll) : ActionResult :=
  let r := showProxLoop ctx false polls
  { r with out := "VCNL4040 Proximity (click to go back):\n" :: r.out }

/-- The `while True` loop of `showLux` (code.py lines 117-128): identical
to `showProxLoop` except that it prints the lux reading. -/
def showLuxLoop (ctx : Ctx) (prevClick : Bool) : List Poll → ActionResult
  | [] => { ctx := ctx, out := [], leds := [], returned := false, rest := [] }
  | p :: ps =>
    let line := "\r lux: " ++ pyFmtSpace6 p.lux ++ "  "
    if clickEdge prevClick p.click then
      { ctx := ctx, out := [line, "\n"], returned := true, leds := [], rest := ps }
    else
      let r := showLuxLoop ctx p.click ps
      { ctx := r.ctx, out := line :: r.out,
        leds := updateNeopixel p.prox ctx.threshold :: r.leds,
        returned := r.returned, rest := r.rest }

/-- Model of `showLux(ctx)` (code.py lines 110-128). -/
def showLux (ctx : Ctx) (polls : List Poll) : ActionResult :=
  let r := showLuxLoop ctx false polls
  { r with out := "VCNL4040 Ambient Lux (click to go back):\n" :: r.out }

/-- The `while True` loop of `setThresh` (code.py lines 153-169): `thresh`
is the local variable, written back to `ctx['threshold']` whenever the
knob turned.  The click-edge check runs before the delta is applied, so
the delta of the poll carrying the edge is discarded. -/
def setThreshLoop (ctx : Ctx) (prevClick : Bool) (thresh : Int) : List Poll → ActionResult
  | [] => { ctx := ctx, out := [], leds := [], returned := false, rest := [] }
  | p :: ps =>
    let line := "\r threshold: " ++ pyFmtSpace6 thresh ++ "  "
    if clickEdge prevClick p.click then
      { ctx := ctx, out := [line, "\n"], leds := [], returned := true, rest := ps }
    else
      let thresh' := if p.delta ≠ 0 then max 2 (min 60 (thresh + p.delta)) else thresh
      let ctx' := if p.delta ≠ 0 then { ctx with threshold := thresh' } else ctx
      let r := setThreshLoop ctx' p.click thresh' ps
      { ctx := r.ctx, out := line :: r.out,
        leds := updateNeopixel p.prox ctx'.threshold :: r.leds,
        returned := r.returned, rest := r.rest }

/-- Model of `setThresh(ctx)` (code.py lines 130-169): header line, `LO = 2`,
`HI = 60`, `thresh = ctx['threshold']`, then the polling loop with
`prevClick` initialized to `False`. -/
def setThresh (ctx : Ctx) (polls : List Poll) : ActionResult :=
  let r := setThreshLoop ctx false ctx.threshold polls
  { r with out := "Proximity threshold, range 2..60 (click to save):\n" :: r.out }

/-- Dispatch a callable menu value, i.e. Python `action(ctx)`.  The
`notCallable` arm is never reached from `doAction`, which tests
`callable` first. -/
def runAction : MenuAction → Ctx → List Poll → ActionResult
  | .showProx, ctx, polls => showProx ctx polls
  | .showLux, ctx, polls => showLux ctx polls
  | .setThresh, ctx, polls => setThresh ctx polls
  | .notCallable, ctx, polls =>
    { ctx := ctx, out := [], leds := [], returned := true, rest := polls }

/-- Python list indexing `l[i]` with an `int` index: non-negative indices
from the front, negative indices from the back, `IndexError` (here
`none`) when out of range. -/
def pyGet (l : List MenuItem) (i : Int) : Option MenuItem :=
  if 0 ≤ i then l.get? i.toNat
  else if 0 ≤ i + (l.length : Int) then l.get? (i + (l.length : Int)).toNat
  else none

/-- Result of `doAction`: the context on return, console writes, LED
writes, and the polls left unconsumed by the nested action loop. -/
structure DoActionResult where
  ctx : Ctx
  out : List String
  leds : List LedColor
  rest : List Poll
deriving DecidableEq, Repr

/-- Model of `doAction(ctx)` (code.py lines 75-88): print a newline, look up the
selected `(name, action)` entry, run the action when it is callable and
print an error message otherwise, and in either case set
`ctx['newline'] = True` before returning.  `none` models the
`IndexError` raised when the selection is not a valid index. -/
def doAction (ctx : Ctx) (polls : List Poll) : Option DoActionResult :=
  match pyGet ctx.menu ctx.selection with
  | none => none
  | some (name, action) =>
    if callable action then
      let r := runAction action ctx polls
      some { ctx := { r.ctx with newline := true }, out := "\n" :: r.out,
             leds := r.leds, rest := r.rest }
    else
      some { ctx := { ctx with newline := true },
             out := ["\n", name ++ " menu action is not callable\n"],
             leds := [], rest := polls }

/-- The per-item writes of `showMenu`'s `for` loop over
`enumerate(menu)` (code.py lines 67-73): the selected item is wrapped in
the ANSI inverse-video escapes. -/
def showMenuItemWrites (sel : Int) : List (Nat × MenuItem) → List String
  | [] => []
  | (i, (name, _)) :: rest =>
    (if (i : Int) = sel then ["\x1b[7m", " " ++ name ++ " ", "\x1b[0m"]
     else [" " ++ name ++ " "]) ++ showMenuItemWrites sel rest

/-- Model of `showMenu(prefix, ctx)` (code.py lines 45-73): optionally emit a
newline (consuming the `newline` flag), then `'\r%s: ' % prefix`, then
the enumerated menu items.  Returns the updated context and the list of
`stdout.write` calls in order. -/
def showMenu (pfx : String) (ctx : Ctx) : Ctx × List String :=
  let pre : List String := if ctx.newline then ["\n"] else []
  let ctx' := if ctx.newline then { ctx with newline := false } else ctx
  (ctx', pre ++ ("\r" ++ pfx ++ ": ") :: showMenuItemWrites ctx.selection ctx.menu.enum)

/-- One record per iteration of the main event loop: the button reading
of that poll and whether `doAction` fired. -/
structure IterRec where
  click : Bool
  fired : Bool
deriving DecidableEq, Repr

/-- Result of running the main event loop on a finite poll trace. -/
structure MainResult where
  ctx : Ctx
  iters : List IterRec
  out : List String
  leds : List LedColor
  crashed : Bool
deriving DecidableEq, Repr

/-- The event loop of `main()` (code.py lines 235-254), one iteration per
consumed poll: redraw the menu, read `click` and `delta`, run `doAction`
on a pressed-to-released click edge (the nested action loop consumes
polls from the same trace), set `prevClick = click`, apply a non-zero
`delta` via `select`, and update the LED.  `crashed` records the
`IndexError` that an invalid selection inside `doAction` would raise (the
loop stops there).  The `Nat` argument is recursion fuel; every
iteration consumes at least one poll, so `polls.length` fuel is enough
(see `mainLoopFuel_fuel_sufficient`). -/
def mainLoopFuel : Nat → Ctx → Bool → List Poll → MainResult
  | 0, ctx, _, _ => { ctx := ctx, iters := [], out := [], leds := [], crashed := false }
  | _ + 1, ctx, _, [] => { ctx := ctx, iters := [], out := [], leds := [], crashed := false }
  | fuel + 1, ctx, prevClick, p :: ps =>
    let m := showMenu "Main" ctx
    if clickEdge prevClick p.click then
      match doAction m.1 ps with
      | none =>
        { ctx := m.1, iters := [{ click := p.click, fired := true }],
          out := m.2, leds := [], crashed := true }
      | some r =>
        let ctx2 := if p.delta ≠ 0 then select p.delta r.ctx else r.ctx
        let led := updateNeopixel p.prox ctx2.threshold
        let k := mainLoopFuel fuel ctx2 p.click r.rest
        { ctx := k.ctx, iters := { click := p.click, fired := true } :: k.iters,
          out := m.2 ++ r.out ++ k.out, leds := r.leds ++ led :: k.leds,
          crashed := k.crashed }
    else
      let ctx2 := if p.delta ≠ 0 then select p.delta m.1 else m.1
      let led := updateNeopixel p.prox ctx2.threshold
      let k := mainLoopFuel fuel ctx2 p.click ps
      { ctx := k.ctx, iters := { click := p.click, fired := false } :: k.iters,
        out := m.2 ++ k.out, leds := led :: k.leds, crashed := k.crashed }

/-- The event loop of `main()` on a finite poll trace: `mainLoopFuel`
with the always-sufficient fuel budget `polls.length`. -/
def mainLoop (ctx : Ctx) (prevClick : Bool) (polls : List Poll) : MainResult :=
  mainLoopFuel polls.length ctx prevClick polls

/-- The context dictionary built in `main()` (code.py lines 220-232). -/
def initialCtx : Ctx :=
  { menu := [("Show Proxmity", .showProx), ("Show Lux", .showLux), ("Set Threshold", .setThresh)],
    newline := true, selection := 0, threshold := 4 }

/-- Model of `ver = (ssw.get_version() >> 16) & 0xffff` followed by
`assert (ver == 4991), 'unexpected seesaw firmware version'` from
`Encoder.__init__` (code.py lines 27-34), as a function of the raw
version word reported by the Seesaw peripheral. -/
def encoderInit (version : Nat) : Except String Unit :=
  if (version >>> 16) &&& 0xffff = 4991 then Except.ok ()
  else Except.error "unexpected seesaw firmware version"

/-- First index at which the click-edge detector fires on a click trace,
starting from a given previous-click state. -/
def firstEdge (prevClick : Bool) : List Bool → Option Nat
  | [] => none
  | c :: cs => if clickEdge prevClick c then some 0 else Option.map Nat.succ (firstEdge c cs)

/-- Concatenation of a list of console writes into the emitted text. -/
def concatAll : List String → String
  | [] => ""
  | s :: rest => s ++ concatAll rest

/-- The rendering of one enumerated menu item as the spec describes it:
the item at the selected index is wrapped in the inverse-video escape
sequence (ESC[7m before, ESC[0m after), everything else is plain. -/
def renderItem (sel : Int) (x : Nat × MenuItem) : String :=
  if (x.1 : Int) = sel then "\x1b[7m" ++ (" " ++ x.2.1 ++ " ") ++ "\x1b[0m"
  else " " ++ x.2.1 ++ " "

/-- A sample poll used to instantiate universally quantified theorems. -/
def samplePoll : Poll := { click := false, delta := 3, prox := 7, lux := 100 }

/-- A two-poll trace carrying one press followed by one release: the
click-edge detector fires on the second poll. -/
def edgePolls : List Poll :=
  [{ click := true, delta := 0, prox := 1, lux := 1 },
   { click := false, delta := 0, prox := 1, lux := 1 }]

/-- A context whose selected menu entry holds a non-callable value. -/
def brokenCtx : Ctx :=
  { menu := [("Broken", MenuAction.notCallable)], newline := false,
    selection := 0, threshold := 4 }

theorem clickEdge_eq_and (prevClick click : Bool) :
    clickEdge prevClick click = (prevClick && !click) := by
  cases prevClick <;> cases click <;> rfl

theorem clickEdge_false_start (click : Bool) : clickEdge false click = false := by
  cases click <;> rfl

/-- C1: for every integer `delta` and every context whose selection is a
valid index of the menu, `select` sets the selection to
`max(0, min(len(menu)-1, sel + delta))`, and the result is again a valid
index of the menu list. -/
theorem select_clamps_to_valid_index (delta : Int) (ctx : Ctx)
    (h0 : 0 ≤ ctx.selection) (h1 : ctx.selection ≤ (ctx.menu.length : Int) - 1) :
    (select delta ctx).selection
        = max 0 (min ((ctx.menu.length : Int) - 1) (ctx.selection + delta)) ∧
    0 ≤ (select delta ctx).selection ∧
    (select delta ctx).selection ≤ (ctx.menu.length : Int) - 1 :=
  ⟨rfl, le_max_left 0 _, max_le (le_trans h0 h1) (min_le_left _ _)⟩

theorem select_clamps_to_valid_index_witness :
    (select 5 initialCtx).selection
        = max 0 (min ((initialCtx.menu.length : Int) - 1) (initialCtx.selection + 5)) ∧
    0 ≤ (select 5 initialCtx).selection ∧
    (select 5 initialCtx).selection ≤ (initialCtx.menu.length : Int) - 1 :=
  select_clamps_to_valid_index 5 initialCtx (by decide) (by decide)

theorem setThreshLoop_threshold_in_range (polls : List Poll) :
    ∀ ctx prevClick thresh, 2 ≤ ctx.threshold → ctx.threshold ≤ 60 →
      2 ≤ (setThreshLoop ctx prevClick thresh polls).ctx.threshold ∧
        (setThreshLoop ctx prevClick thresh polls).ctx.threshold ≤ 60 := by
  induction polls with
  | nil => intro ctx prevClick thresh h1 h2; exact ⟨h1, h2⟩
  | cons p ps ih =>
    intro ctx prevClick thresh h1 h2
    simp only [setThreshLoop]
    split
    · exact ⟨h1, h2⟩
    · by_cases hd : p.delta = 0
      · simpa [hd] using ih ctx p.click thresh h1 h2
      · simpa [hd] using ih _ p.click _ (le_max_left 2 _)
          (max_le (by norm_num) (min_le_left 60 _))

/-- C2: in `setThresh` a non-zero encoder delta updates the threshold to
`max(2, min(60, thresh + delta))`, and starting from any threshold in
`2..60` the stored threshold is in `2..60` after processing any sequence
of polls (every prefix of a trace is itself a trace, so the bound holds
throughout the loop as well). -/
theorem setThresh_clamps_and_stays_in_range (ctx : Ctx)
    (hlo : 2 ≤ ctx.threshold) (hhi : ctx.threshold ≤ 60) :
    (∀ p : Poll, p.delta ≠ 0 →
        (setThresh ctx [p]).ctx.threshold = max 2 (min 60 (ctx.threshold + p.delta))) ∧
    (∀ polls : List Poll,
        2 ≤ (setThresh ctx polls).ctx.threshold ∧
          (setThresh ctx polls).ctx.threshold ≤ 60) := by
  constructor
  · intro p hd
    simp [setThresh, setThreshLoop, clickEdge_false_start, hd]
  · intro polls
    simpa [setThresh] using
      setThreshLoop_threshold_in_range polls ctx false ctx.threshold hlo hhi

theorem setThresh_clamps_and_stays_in_range_witness :
    (setThresh initialCtx [samplePoll]).ctx.threshold
        = max 2 (min 60 (initialCtx.threshold + samplePoll.delta)) ∧
    (2 ≤ (setThresh initialCtx [samplePoll]).ctx.threshold ∧
      (setThresh initialCtx [samplePoll]).ctx.threshold ≤ 60) :=
  ⟨(setThresh_clamps_and_stays_in_range initialCtx (by decide) (by decide)).1
      samplePoll (by decide),
   (setThresh_clamps_and_stays_in_range initialCtx (by decide) (by decide)).2
      [samplePoll]⟩

/-- C8: encoder initialization succeeds exactly when the upper 16 bits of
the reported Seesaw firmware version equal 4991, and otherwise aborts
with the assertion message; no other outcome exists. -/
theorem encoderInit_version_assertion (version : Nat) :
    (encoderInit version = Except.ok () ↔ (version >>> 16) &&& 0xffff = 4991) ∧
    (encoderInit version = Except.ok () ∨
      encoderInit version = Except.error "unexpected seesaw firmware version") := by
  unfold encoderInit
  split <;> simp_all

theorem showProxLoop_preserves_ctx (polls : List Poll) :
    ∀ ctx prevClick, (showProxLoop ctx prevClick polls).ctx = ctx := by
  induction polls with
  | nil => intro ctx prevClick; rfl
  | cons p ps ih =>
    intro ctx prevClick
    simp only [showProxLoop]
    split
    · rfl
    · simpa using ih ctx p.click

theorem showLuxLoop_preserves_ctx (polls : List Poll) :
    ∀ ctx prevClick, (showLuxLoop ctx prevClick polls).ctx = ctx := by
  induction polls with
  | nil => intro ctx prevClick; rfl
  | cons p ps ih =>
    intro ctx prevClick
    simp only [showLuxLoop]
    split
    · rfl
    · simpa using ih ctx p.click

/-- C10: `showProx` and `showLux` never modify the context: on return the
whole context record (hence in particular its `selection`, `threshold`,
`menu` and `newline` fields) equals the one passed in. -/
theorem showProx_showLux_do_not_modify_context (ctx : Ctx) (polls : List Poll) :
    (showProx ctx polls).ctx = ctx ∧ (showLux ctx polls).ctx = ctx := by
  constructor
  · simpa [showProx] using showProxLoop_preserves_ctx polls ctx false
  · simpa [showLux] using showLuxLoop_preserves_ctx polls ctx false

theorem showProxLoop_edge_return (polls : List Poll) :
    ∀ ctx prevClick,
      (firstEdge prevClick (polls.map Poll.click) = none →
        (showProxLoop ctx prevClick polls).returned = false ∧
          (showProxLoop ctx prevClick polls).rest = []) ∧
      (∀ i, firstEdge prevClick (polls.map Poll.click) = some i →
        (showProxLoop ctx prevClick polls).returned = true ∧
          (showProxLoop ctx prevClick polls).rest = polls.drop (i + 1)) := by
  induction polls with
  | nil =>
    intro ctx prevClick
    exact ⟨fun _ => ⟨rfl, rfl⟩, fun i h => by simp [firstEdge] at h⟩
  | cons p ps ih =>
    intro ctx prevClick
    by_cases he : clickEdge prevClick p.click
    · constructor
      · intro h
        simp [firstEdge, he] at h
      · intro i h
        simp [firstEdge, he] at h
        subst h
        simp [showProxLoop, he]
    · constructor
      · intro h
        simp only [List.map_cons, firstEdge, if_neg he] at h
        have h2 := (ih ctx p.click).1 (by simpa using h)
        simp [showProxLoop, he, h2.1, h2.2]
      · intro i h
        simp only [List.map_cons, firstEdge, if_neg he] at h
        rcases Option.map_eq_some'.mp h with ⟨j, hj, hij⟩
        have h2 := (ih ctx p.click).2 j hj
        subst hij
        simp [showProxLoop, he, h2.1, h2.2]

theorem showLuxLoop_edge_return (polls : List Poll) :
    ∀ ctx prevClick,
      (firstEdge prevClick (polls.map Poll.click) = none →
        (showLuxLoop ctx prevClick polls).returned = false ∧
          (showLuxLoop ctx prevClick polls).rest = []) ∧
      (∀ i, firstEdge prevClick (polls.map Poll.click) = some i →
        (showLuxLoop ctx prevClick polls).returned = true ∧
          (showLuxLoop ctx prevClick polls).rest = polls.drop (i + 1)) := by
  induction polls with
  | nil =>
    intro ctx prevClick
    exact ⟨fun _ => ⟨rfl, rfl⟩, fun i h => by simp [firstEdge] at h⟩
  | cons p ps ih =>
    intro ctx prevClick
    by_cases he : clickEdge prevClick p.click
    · constructor
      · intro h
        simp [firstEdge, he] at h
      · intro i h
        simp [firstEdge, he] at h
        subst h
        simp [showLuxLoop, he]
    · constructor
      · intro h
        simp only [List.map_cons, firstEdge, if_neg he] at h
        have h2 := (ih ctx p.click).1 (by simpa using h)
        simp [showLuxLoop, he, h2.1, h2.2]
      · intro i h
        simp only [List.map_cons, firstEdge, if_neg he] at h
        rcases Option.map_eq_some'.mp h with ⟨j, hj, hij⟩
        have h2 := (ih ctx p.click).2 j hj
        subst hij
        simp [showLuxLoop, he, h2.1, h2.2]

theorem setThreshLoop_edge_return (polls : List Poll) :
    ∀ ctx prevClick thresh,
      (firstEdge prevClick (polls.map Poll.click) = none →
        (setThreshLoop ctx prevClick thresh polls).returned = false ∧
          (setThreshLoop ctx prevClick thresh polls).rest = []) ∧
      (∀ i, firstEdge prevClick (polls.map Poll.click) = some i →
        (setThreshLoop ctx prevClick thresh polls).returned = true ∧
          (setThreshLoop ctx prevClick thresh polls).rest = polls.drop (i + 1)) := by
  induction polls with
  | nil =>
    intro ctx prevClick thresh
    exact ⟨fun _ => ⟨rfl, rfl⟩, fun i h => by simp [firstEdge] at h⟩
  | cons p ps ih =>
    intro ctx prevClick thresh
    by_cases he : clickEdge prevClick p.click
    · constructor
      · intro h
        simp [firstEdge, he] at h
      · intro i h
        simp [firstEdge, he] at h
        subst h
        simp [setThreshLoop, he]
    · constructor
      · intro h
        simp only [List.map_cons, firstEdge, if_neg he] at h
        have h3 : firstEdge p.click (ps.map Poll.click) = none := by simpa using h
        by_cases hd : p.delta = 0
        · have h2 := (ih ctx p.click thresh).1 h3
          simp [setThreshLoop, he, hd, h2.1, h2.2]
        · have h2 := (ih { ctx with threshold := max 2 (min 60 (thresh + p.delta)) }
            p.click (max 2 (min 60 (thresh + p.delta)))).1 h3
          simp [setThreshLoop, he, hd, h2.1, h2.2]
      · intro i h
        simp only [List.map_cons, firstEdge, if_neg he] at h
        rcases Option.map_eq_some'.mp h with ⟨j, hj, hij⟩
        subst hij
        by_cases hd : p.delta = 0
        · have h2 := (ih ctx p.click thresh).2 j hj
          simp [setThreshLoop, he, hd, h2.1, h2.2]
        · have h2 := (ih { ctx with threshold := max 2 (min 60 (thresh + p.delta)) }
            p.click (max 2 (min 60 (thresh + p.delta)))).2 j hj
          simp [setThreshLoop, he, hd, h2.1, h2.2]

/-- C5: each of `showProx`, `showLux` and `setThresh` starts its loop
with the previous-click state initialized to released (`false`) and
returns exactly when the click-edge detector first fires on its polls:
with no pressed-to-released edge in the trace the loop consumes every
poll without returning, and with a first edge at index `i` it returns
right there, leaving the polls after index `i` unconsumed. -/
theorem actions_return_exactly_on_click_edge (ctx : Ctx) (polls : List Poll) :
    (firstEdge false (polls.map Poll.click) = none →
        (showProx ctx polls).returned = false ∧ (showProx ctx polls).rest = [] ∧
        (showLux ctx polls).returned = false ∧ (showLux ctx polls).rest = [] ∧
        (setThresh ctx polls).returned = false ∧ (setThresh ctx polls).rest = []) ∧
    (∀ i, firstEdge false (polls.map Poll.click) = some i →
        (showProx ctx polls).returned = true ∧
          (showProx ctx polls).rest = polls.drop (i + 1) ∧
        (showLux ctx polls).returned = true ∧
          (showLux ctx polls).rest = polls.drop (i + 1) ∧
        (setThresh ctx polls).returned = true ∧
          (setThresh ctx polls).rest = polls.drop (i + 1)) := by
  constructor
  · intro h
    have hp := (showProxLoop_edge_return polls ctx false).1 h
    have hl := (showLuxLoop_edge_return polls ctx false).1 h
    have ht := (setThreshLoop_edge_return polls ctx false ctx.threshold).1 h
    simp [showProx, showLux, setThresh, hp.1, hp.2, hl.1, hl.2, ht.1, ht.2]
  · intro i h
    have hp := (showProxLoop_edge_return polls ctx false).2 i h
    have hl := (showLuxLoop_edge_return polls ctx false).2 i h
    have ht := (setThreshLoop_edge_return polls ctx false ctx.threshold).2 i h
    simp [showProx, showLux, setThresh, hp.1, hp.2, hl.1, hl.2, ht.1, ht.2]

theorem actions_return_exactly_on_click_edge_witness :
    (showProx initialCtx edgePolls).returned = true ∧
      (showProx initialCtx edgePolls).rest = edgePolls.drop (1 + 1) ∧
    (showLux initialCtx edgePolls).returned = true ∧
      (showLux initialCtx edgePolls).rest = edgePolls.drop (1 + 1) ∧
    (setThresh initialCtx edgePolls).returned = true ∧
      (setThresh initialCtx edgePolls).rest = edgePolls.drop (1 + 1) :=
  (actions_return_exactly_on_click_edge initialCtx edgePolls).2 1 (by decide)

theorem showProxLoop_rest_length (ctx : Ctx) (prevClick : Bool) (polls : List Poll) :
    (showProxLoop ctx prevClick polls).rest.length ≤ polls.length := by
  induction polls generalizing ctx prevClick with
  | nil => simp [showProxLoop]
  | cons p ps ih =>
    simp only [showProxLoop]
    split
    · simp
    · simpa using Nat.le_succ_of_le (ih ctx p.click)

theorem showLuxLoop_rest_length (ctx : Ctx) (prevClick : Bool) (polls : List Poll) :
    (showLuxLoop ctx prevClick polls).rest.length ≤ polls.length := by
  induction polls generalizing ctx prevClick with
  | nil => simp [showLuxLoop]
  | cons p ps ih =>
    simp only [showLuxLoop]
    split
    · simp
    · simpa using Nat.le_succ_of_le (ih ctx p.click)

theorem setThreshLoop_rest_length (ctx : Ctx) (prevClick : Bool) (thresh : Int)
    (polls : List Poll) :
    (setThreshLoop ctx prevClick thresh polls).rest.length ≤ polls.length := by
  induction polls generalizing ctx prevClick thresh with
  | nil => simp [setThreshLoop]
  | cons p ps ih =>
    simp only [setThreshLoop]
    split
    · simp
    · simpa using Nat.le_succ_of_le (ih _ p.click _)

theorem runAction_rest_length (a : MenuAction) (ctx : Ctx) (polls : List Poll) :
    (runAction a ctx polls).rest.length ≤ polls.length := by
  cases a with
  | showProx => simpa [runAction, showProx] using showProxLoop_rest_length ctx false polls
  | showLux => simpa [runAction, showLux] using showLuxLoop_rest_length ctx false polls
  | setThresh =>
    simpa [runAction, setThresh] using
      setThreshLoop_rest_length ctx false ctx.threshold polls
  | notCallable => simp [runAction]

theorem doAction_rest_length (ctx : Ctx) (polls : List Poll) (r : DoActionResult)
    (h : doAction ctx polls = some r) : r.rest.length ≤ polls.length := by
  unfold doAction at h
  split at h
  · exact absurd h (by simp)
  · split at h
    · cases h.symm
      simpa using runAction_rest_length _ ctx polls
    · cases h.symm
      simp

/-- The fuel budget of `mainLoopFuel` is irrelevant as long as it is at
least the number of polls: every iteration of the event loop consumes at
least one poll.  In particular `mainLoop` computes the limit behavior of
the unbounded `while True` loop on a finite trace. -/
theorem mainLoopFuel_fuel_sufficient (fuel : Nat) :
    ∀ fuel' ctx prevClick polls, polls.length ≤ fuel → polls.length ≤ fuel' →
      mainLoopFuel fuel ctx prevClick polls = mainLoopFuel fuel' ctx prevClick polls := by
  induction fuel with
  | zero =>
    intro fuel' ctx prevClick polls h h'
    rw [Nat.le_zero] at h
    rw [List.length_eq_zero] at h
    subst h
    cases fuel' <;> rfl
  | succ n ih =>
    intro fuel' ctx prevClick polls h h'
    match fuel', polls with
    | 0, polls =>
      rw [Nat.le_zero] at h'
      rw [List.length_eq_zero] at h'
      subst h'
      rfl
    | m + 1, [] => rfl
    | m + 1, p :: ps =>
      simp only [mainLoopFuel]
      have hps : ps.length ≤ n := by simpa using h
      have hps' : ps.length ≤ m := by simpa using h'
      split
      · split
        · rfl
        · rename_i r hr
          have hr2 := doAction_rest_length _ ps r hr
          rw [ih m _ p.click r.rest (le_trans hr2 hps) (le_trans hr2 hps')]
      · rw [ih m _ p.click ps hps hps']

theorem updateNeopixel_two_colors (prox thresh : Int) :
    updateNeopixel prox thresh = (5, 0, 5) ∨ updateNeopixel prox thresh = (0, 0, 0) := by
  unfold updateNeopixel
  split
  · exact Or.inl rfl
  · exact Or.inr rfl

theorem showProxLoop_leds_two_colors (ctx : Ctx) (prevClick : Bool) (polls : List Poll) :
    ∀ c ∈ (showProxLoop ctx prevClick polls).leds, c = (5, 0, 5) ∨ c = (0, 0, 0) := by
  induction polls generalizing ctx prevClick with
  | nil => simp [showProxLoop]
  | cons p ps ih =>
    simp only [showProxLoop]
    split
    · simp
    · intro c hc
      simp only [List.mem_cons] at hc
      rcases hc with hc | hc
      · exact hc ▸ updateNeopixel_two_colors _ _
      · exact ih ctx p.click c hc

theorem showLuxLoop_leds_two_colors (ctx : Ctx) (prevClick : Bool) (polls : List Poll) :
    ∀ c ∈ (showLuxLoop ctx prevClick polls).leds, c = (5, 0, 5) ∨ c = (0, 0, 0) := by
  induction polls generalizing ctx prevClick with
  | nil => simp [showLuxLoop]
  | cons p ps ih =>
    simp only [showLuxLoop]
    split
    · simp
    · intro c hc
      simp only [List.mem_cons] at hc
      rcases hc with hc | hc
      · exact hc ▸ updateNeopixel_two_colors _ _
      · exact ih ctx p.click c hc

theorem setThreshLoop_leds_two_colors (ctx : Ctx) (prevClick : Bool) (thresh : Int)
    (polls : List Poll) :
    ∀ c ∈ (setThreshLoop ctx prevClick thresh polls).leds, c = (5, 0, 5) ∨ c = (0, 0, 0) := by
  induction polls generalizing ctx prevClick thresh with
  | nil => simp [setThreshLoop]
  | cons p ps ih =>
    simp only [setThreshLoop]
    split
    · simp
    · intro c hc
      simp only [List.mem_cons] at hc
      rcases hc with hc | hc
      · exact hc ▸ updateNeopixel_two_colors _ _
      · exact ih _ p.click _ c hc

theorem runAction_leds_two_colors (a : MenuAction) (ctx : Ctx) (polls : List Poll) :
    ∀ c ∈ (runAction a ctx polls).leds, c = (5, 0, 5) ∨ c = (0, 0, 0) := by
  cases a with
  | showProx =>
    simpa [runAction, showProx] using showProxLoop_leds_two_colors ctx false polls
  | showLux =>
    simpa [runAction, showLux] using showLuxLoop_leds_two_colors ctx false polls
  | setThresh =>
    simpa [runAction, setThresh] using
      setThreshLoop_leds_two_colors ctx false ctx.threshold polls
  | notCallable => simp [runAction]

theorem doAction_leds_two_colors (ctx : Ctx) (polls : List Poll) (r : DoActionResult)
    (h : doAction ctx polls = some r) :
    ∀ c ∈ r.leds, c = (5, 0, 5) ∨ c = (0, 0, 0) := by
  unfold doAction at h
  split at h
  · exact absurd h (by simp)
  · split at h
    · cases h.symm
      simpa using runAction_leds_two_colors _ ctx polls
    · cases h.symm
      simp

theorem mainLoopFuel_leds_two_colors (fuel : Nat) :
    ∀ ctx prevClick polls, ∀ c ∈ (mainLoopFuel fuel ctx prevClick polls).leds,
      c = (5, 0, 5) ∨ c = (0, 0, 0) := by
  induction fuel with
  | zero => intro ctx prevClick polls; simp [mainLoopFuel]
  | succ n ih =>
    intro ctx prevClick polls
    match polls with
    | [] => simp [mainLoopFuel]
    | p :: ps =>
      simp only [mainLoopFuel]
      split
      · split
        · simp
        · rename_i r hr
          intro c hc
          simp only [List.mem_append, List.mem_cons] at hc
          rcases hc with hc | hc | hc
          · exact doAction_leds_two_colors _ ps r hr c hc
          · exact hc ▸ updateNeopixel_two_colors _ _
          · exact ih _ p.click r.rest c hc
      · intro c hc
        simp only [List.mem_cons] at hc
        rcases hc with hc | hc
        · exact hc ▸ updateNeopixel_two_colors _ _
        · exact ih _ p.click ps c hc

/-- C4: `updateNeopixel` writes the color bytes `(5, 0, 5)` exactly when
the proximity reading is at least the stored threshold and `(0, 0, 0)`
otherwise, and every LED write produced anywhere in a run of the program
(the event loop including the nested action loops) is one of those two
values. -/
theorem neopixel_writes_only_two_colors (prox thresh : Int) (ctx : Ctx)
    (prevClick : Bool) (polls : List Poll) :
    (updateNeopixel prox thresh = (5, 0, 5) ↔ thresh ≤ prox) ∧
    (updateNeopixel prox thresh = (0, 0, 0) ↔ ¬ thresh ≤ prox) ∧
    (∀ c ∈ (mainLoop ctx prevClick polls).leds, c = (5, 0, 5) ∨ c = (0, 0, 0)) := by
  refine ⟨?_, ?_, ?_⟩
  · unfold updateNeopixel
    split
    · rename_i h
      exact iff_of_true rfl h
    · rename_i h
      exact iff_of_false (by decide) h
  · unfold updateNeopixel
    split
    · rename_i h
      exact iff_of_false (by decide) (not_not_intro h)
    · rename_i h
      exact iff_of_true rfl h
  · exact mainLoopFuel_leds_two_colors polls.length ctx prevClick polls

theorem neopixel_writes_only_two_colors_witness :
    ((5, 0, 5) : LedColor) ∈ (mainLoop initialCtx false [samplePoll]).leds ∧
    ((updateNeopixel samplePoll.prox initialCtx.threshold = (5, 0, 5) ↔
        initialCtx.threshold ≤ samplePoll.prox) ∧
      ((5, 0, 5) = ((5, 0, 5) : LedColor) ∨ (5, 0, 5) = ((0, 0, 0) : LedColor))) :=
  ⟨by decide,
   (neopixel_writes_only_two_colors samplePoll.prox initialCtx.threshold initialCtx
      false [samplePoll]).1,
   (neopixel_writes_only_two_colors samplePoll.prox initialCtx.threshold initialCtx
      false [samplePoll]).2.2 (5, 0, 5) (by decide)⟩

theorem mainLoopFuel_fired_eq_edge (fuel : Nat) :
    ∀ ctx prevClick polls,
      ((mainLoopFuel fuel ctx prevClick polls).iters.map IterRec.fired) =
        List.zipWith (fun pc c => pc && !c)
          (prevClick :: (mainLoopFuel fuel ctx prevClick polls).iters.map IterRec.click)
          ((mainLoopFuel fuel ctx prevClick polls).iters.map IterRec.click) := by
  induction fuel with
  | zero => intro ctx prevClick polls; simp [mainLoopFuel]
  | succ n ih =>
    intro ctx prevClick polls
    match polls with
    | [] => simp [mainLoopFuel]
    | p :: ps =>
      simp only [mainLoopFuel]
      split
      · rename_i he
        rw [clickEdge_eq_and] at he
        split
        · simp [he]
        · rename_i r hr
          have ihk := ih (if p.delta ≠ 0 then select p.delta r.ctx else r.ctx) p.click r.rest
          simp only [ne_eq, ite_not] at ihk
          simp [he, ihk]
      · rename_i he
        rw [Bool.not_eq_true, clickEdge_eq_and] at he
        have ihk := ih (if p.delta ≠ 0 then select p.delta
          (showMenu "Main" ctx).1 else (showMenu "Main" ctx).1) p.click ps
        simp only [ne_eq, ite_not] at ihk
        simp [he, ihk]

/-- C3: over any poll trace, the list of per-iteration `doAction`
invocation flags of the main event loop equals the pressed-then-released
edge detector `prev && !cur` zipped over consecutive button readings,
with the previous reading of the first iteration being the initial
`prevClick = False`.  So `doAction` runs exactly on a
pressed-to-released transition and never on a press, while held, or
while the button stays released. -/
theorem main_invokes_doAction_exactly_on_release_edge (ctx : Ctx) (polls : List Poll) :
    ((mainLoop ctx false polls).iters.map IterRec.fired) =
      List.zipWith (fun pc c => pc && !c)
        (false :: (mainLoop ctx false polls).iters.map IterRec.click)
        ((mainLoop ctx false polls).iters.map IterRec.click) :=
  mainLoopFuel_fired_eq_edge polls.length ctx false polls

theorem showMenu_preserves_menu (pfx : String) (ctx : Ctx) :
    (showMenu pfx ctx).1.menu = ctx.menu := by
  unfold showMenu
  split <;> rfl

theorem setThreshLoop_preserves_menu (polls : List Poll) :
    ∀ ctx prevClick thresh, (setThreshLoop ctx prevClick thresh polls).ctx.menu = ctx.menu := by
  induction polls with
  | nil => intro ctx prevClick thresh; rfl
  | cons p ps ih =>
    intro ctx prevClick thresh
    simp only [setThreshLoop]
    split
    · rfl
    · by_cases hd : p.delta = 0
      · simpa [hd] using ih ctx p.click thresh
      · simpa [hd] using
          ih { ctx with threshold := max 2 (min 60 (thresh + p.delta)) } p.click _

theorem runAction_preserves_menu (a : MenuAction) (ctx : Ctx) (polls : List Poll) :
    (runAction a ctx polls).ctx.menu = ctx.menu := by
  cases a with
  | showProx =>
    simp [runAction, showProx, showProxLoop_preserves_ctx polls ctx false]
  | showLux =>
    simp [runAction, showLux, showLuxLoop_preserves_ctx polls ctx false]
  | setThresh =>
    simpa [runAction, setThresh] using
      setThreshLoop_preserves_menu polls ctx false ctx.threshold
  | notCallable => rfl

theorem doAction_preserves_menu (ctx : Ctx) (polls : List Poll) (r : DoActionResult)
    (h : doAction ctx polls = some r) : r.ctx.menu = ctx.menu := by
  unfold doAction at h
  split at h
  · exact absurd h (by simp)
  · split at h
    · cases h.symm
      simpa using runAction_preserves_menu _ ctx polls
    · cases h.symm
      simp

theorem mainLoopFuel_preserves_menu (fuel : Nat) :
    ∀ ctx prevClick polls, (mainLoopFuel fuel ctx prevClick polls).ctx.menu = ctx.menu := by
  induction fuel with
  | zero => intro ctx prevClick polls; rfl
  | succ n ih =>
    intro ctx prevClick polls
    match polls with
    | [] => rfl
    | p :: ps =>
      simp only [mainLoopFuel]
      split
      · split
        · simpa using showMenu_preserves_menu "Main" ctx
        · rename_i r hr
          have h1 := doAction_preserves_menu _ ps r hr
          have h2 := showMenu_preserves_menu "Main" ctx
          have ihk := ih (if p.delta ≠ 0 then select p.delta r.ctx else r.ctx) p.click r.rest
          simp only [ihk]
          split
          · simpa [select] using h1.trans h2
          · exact h1.trans h2
      · have h2 := showMenu_preserves_menu "Main" ctx
        have ihk := ih (if p.delta ≠ 0 then select p.delta
          (showMenu "Main" ctx).1 else (showMenu "Main" ctx).1) p.click ps
        simp only [ihk]
        split
        · simpa [select] using h2
        · exact h2

/-- C7: the navigation menu built at startup is exactly the three fixed
entries `('Show Proxmity', showProx)`, `('Show Lux', showLux)`,
`('Set Threshold', setThresh)`, and no operation of the program — the
event loop (with its nested action loops and `doAction` dispatch),
`select`, `showMenu`, or any action routine — ever changes the stored
menu list. -/
theorem menu_is_fixed_three_item_list (prevClick : Bool) (polls : List Poll) :
    initialCtx.menu = [("Show Proxmity", MenuAction.showProx),
        ("Show Lux", MenuAction.showLux), ("Set Threshold", MenuAction.setThresh)] ∧
    initialCtx.menu.length = 3 ∧
    (∀ ctx : Ctx, (mainLoop ctx prevClick polls).ctx.menu = ctx.menu) ∧
    (∀ delta ctx, (select delta ctx).menu = ctx.menu) ∧
    (∀ pfx ctx, (showMenu pfx ctx).1.menu = ctx.menu) ∧
    (∀ a ctx, (runAction a ctx polls).ctx.menu = ctx.menu) ∧
    (∀ ctx, (showProx ctx polls).ctx.menu = ctx.menu) ∧
    (∀ ctx, (showLux ctx polls).ctx.menu = ctx.menu) ∧
    (∀ ctx, (setThresh ctx polls).ctx.menu = ctx.menu) := by
  refine ⟨rfl, rfl, ?_, ?_, ?_, ?_, ?_, ?_, ?_⟩
  · intro ctx
    exact mainLoopFuel_preserves_menu polls.length ctx prevClick polls
  · intro delta ctx
    rfl
  · intro pfx ctx
    exact showMenu_preserves_menu pfx ctx
  · intro a ctx
    exact runAction_preserves_menu a ctx polls
  · intro ctx
    simp [showProx, showProxLoop_preserves_ctx polls ctx false]
  · intro ctx
    simp [showLux, showLuxLoop_preserves_ctx polls ctx false]
  · intro ctx
    simpa [setThresh] using setThreshLoop_preserves_menu polls ctx false ctx.threshold

theorem pyGet_valid (l : List MenuItem) (i : Int) (h0 : 0 ≤ i)
    (h1 : i < (l.length : Int)) : ∃ x, pyGet l i = some x := by
  unfold pyGet
  rw [if_pos h0]
  have h2 : i.toNat < l.length := by omega
  exact ⟨l.get ⟨i.toNat, h2⟩, List.get?_eq_get h2⟩

/-- C9: for every context whose selection is a valid menu index,
`doAction` returns normally (no `IndexError`), always sets the
`newline` flag to `True` before returning, and when the selected entry
holds a non-callable value it does not invoke it: it emits only the
blank line and the `... menu action is not callable` message, produces
no LED writes, and consumes no polls. -/
theorem doAction_never_raises_on_not_callable (ctx : Ctx) (polls : List Poll)
    (h0 : 0 ≤ ctx.selection) (h1 : ctx.selection < (ctx.menu.length : Int)) :
    (doAction ctx polls).isSome = true ∧
    Option.map (fun r => r.ctx.newline) (doAction ctx polls) = some true ∧
    (∀ name, pyGet ctx.menu ctx.selection = some (name, MenuAction.notCallable) →
        doAction ctx polls =
          some { ctx := { ctx with newline := true },
                 out := ["\n", name ++ " menu action is not callable\n"],
                 leds := [], rest := polls }) := by
  obtain ⟨x, hx⟩ := pyGet_valid ctx.menu ctx.selection h0 h1
  obtain ⟨name, action⟩ := x
  refine ⟨?_, ?_, ?_⟩
  · unfold doAction
    rw [hx]
    split
    · rename_i heq
      simp at heq
    · split <;> simp
  · unfold doAction
    rw [hx]
    split
    · rename_i heq
      simp at heq
    · split <;> simp
  · intro name' h'
    have h2 := hx.symm.trans h'
    simp only [Option.some.injEq, Prod.mk.injEq] at h2
    obtain ⟨h3, h4⟩ := h2
    subst h3
    subst h4
    unfold doAction
    rw [hx]
    split
    · rename_i heq
      simp at heq
    · rename_i n' a' heq
      simp only [Option.some.injEq, Prod.mk.injEq] at heq
      obtain ⟨e1, e2⟩ := heq
      subst e1
      subst e2
      simp [callable]

theorem doAction_never_raises_on_not_callable_witness :
    (doAction brokenCtx []).isSome = true ∧
    Option.map (fun r => r.ctx.newline) (doAction brokenCtx []) = some true ∧
    doAction brokenCtx [] =
      some { ctx := { brokenCtx with newline := true },
             out := ["\n", "Broken" ++ " menu action is not callable\n"],
             leds := [], rest := [] } :=
  have h := doAction_never_raises_on_not_callable brokenCtx [] (by decide) (by decide)
  ⟨h.1, h.2.1, h.2.2 "Broken" (by decide)⟩

theorem concatAll_append (l1 l2 : List String) :
    concatAll (l1 ++ l2) = concatAll l1 ++ concatAll l2 := by
  induction l1 with
  | nil => simp [concatAll, String.empty_append]
  | cons s rest ih => simp [concatAll, ih, String.append_assoc]

theorem itemWrites_concat (sel : Int) (l : List (Nat × MenuItem)) :
    concatAll (showMenuItemWrites sel l) = concatAll (l.map (renderItem sel)) := by
  induction l with
  | nil => rfl
  | cons x rest ih =>
    obtain ⟨i, name, a⟩ := x
    apply String.ext
    by_cases hc : (i : Int) = sel
    · simp [showMenuItemWrites, renderItem, hc, concatAll_append, concatAll, ih,
        String.data_append, List.append_assoc]
    · simp [showMenuItemWrites, renderItem, hc, concatAll_append, concatAll, ih,
        String.data_append, List.append_assoc]

theorem renderItem_last_char (sel : Int) (x : Nat × MenuItem) :
    (renderItem sel x).data.getLast? = some ' ' ∨
      (renderItem sel x).data.getLast? = some 'm' := by
  unfold renderItem
  split
  · right
    rw [String.data_append, List.getLast?_append_of_ne_nil _ (by decide)]
    rfl
  · left
    rw [String.data_append, List.getLast?_append_of_ne_nil _ (by decide)]
    rfl

theorem concatAll_renderItems_last_char (sel : Int) :
    ∀ l : List (Nat × MenuItem), l ≠ [] →
      ((concatAll (l.map (renderItem sel))).data.getLast? = some ' ' ∨
        (concatAll (l.map (renderItem sel))).data.getLast? = some 'm') := by
  intro l
  induction l with
  | nil => intro h; exact absurd rfl h
  | cons x xs ih =>
    intro _
    cases xs with
    | nil =>
      simpa [concatAll, String.append_empty] using renderItem_last_char sel x
    | cons y ys =>
      have h2 := ih (by simp)
      have h3 : (concatAll ((y :: ys).map (renderItem sel))).data ≠ [] := by
        intro hnil
        rcases h2 with h2 | h2 <;> rw [hnil] at h2 <;> simp at h2
      rw [show concatAll (((x :: y :: ys)).map (renderItem sel))
            = renderItem sel x ++ concatAll ((y :: ys).map (renderItem sel)) from rfl,
        String.data_append, List.getLast?_append_of_ne_nil _ h3]
      exact h2

theorem countP_enumFrom_eq_index (l : List MenuItem) (sel : Int) :
    ∀ n : Nat, (l.enumFrom n).countP (fun x => decide ((x.1 : Int) = sel))
      = if (n : Int) ≤ sel ∧ sel < (n : Int) + (l.length : Int) then 1 else 0 := by
  induction l with
  | nil =>
    intro n
    simp only [List.enumFrom, List.countP_nil, List.length_nil]
    split
    · omega
    · rfl
  | cons x xs ih =>
    intro n
    simp only [List.enumFrom, List.countP_cons, ih (n + 1), List.length_cons,
      decide_eq_true_eq]
    push_cast
    split_ifs <;> omega

/-- C6: for every context whose selection is a valid menu index,
`showMenu` emits a leading newline exactly when the `newline` flag is set
(and the flag is `false` afterwards in either case), followed by a
carriage return, the prefix with `': '`, and each menu item name once in
list order, the item at the selected index being the one wrapped in the
ANSI inverse-video escapes (`renderItem`); exactly one enumerated index
matches the selection, and the emitted text never ends in a newline. -/
theorem showMenu_renders_single_line (pfx : String) (ctx : Ctx)
    (h0 : 0 ≤ ctx.selection) (h1 : ctx.selection < (ctx.menu.length : Int)) :
    concatAll (showMenu pfx ctx).2 =
      (if ctx.newline then "\n" else "") ++ "\r" ++ pfx ++ ": " ++
        concatAll (ctx.menu.enum.map (renderItem ctx.selection)) ∧
    (showMenu pfx ctx).1.newline = false ∧
    ctx.menu.enum.countP (fun x => decide ((x.1 : Int) = ctx.selection)) = 1 ∧
    (concatAll (showMenu pfx ctx).2).data.getLast? ≠ some '\n' := by
  have henum : ctx.menu.enum ≠ [] := by
    have : ctx.menu ≠ [] := by
      intro h
      rw [h] at h1
      simp at h1
      omega
    simpa [List.enum_eq_zip_range, List.length_zip] using this
  have hout : concatAll (showMenu pfx ctx).2 =
      (if ctx.newline then "\n" else "") ++ "\r" ++ pfx ++ ": " ++
        concatAll (ctx.menu.enum.map (renderItem ctx.selection)) := by
    by_cases hn : ctx.newline
    · apply String.ext
      simp [showMenu, hn, concatAll_append, concatAll, itemWrites_concat,
        String.data_append, List.append_assoc]
    · apply String.ext
      simp [showMenu, hn, concatAll_append, concatAll, itemWrites_concat,
        String.data_append, List.append_assoc]
  refine ⟨hout, ?_, ?_, ?_⟩
  · unfold showMenu
    split
    · rfl
    · rename_i hn
      simpa using hn
  · rw [show ctx.menu.enum = ctx.menu.enumFrom 0 from rfl,
      countP_enumFrom_eq_index ctx.menu ctx.selection 0]
    rw [if_pos]
    constructor
    · simpa using h0
    · simpa using h1
  · have hlast := concatAll_renderItems_last_char ctx.selection ctx.menu.enum henum
    have hne : (concatAll (ctx.menu.enum.map (renderItem ctx.selection))).data ≠ [] := by
      intro hnil
      rcases hlast with h | h <;> rw [hnil] at h <;> simp at h
    rw [hout]
    rw [String.data_append, List.getLast?_append_of_ne_nil _ hne]
    rcases hlast with h | h <;> rw [h] <;> decide

theorem showMenu_renders_single_line_witness :
    concatAll (showMenu "Main" initialCtx).2 =
      (if initialCtx.newline then "\n" else "") ++ "\r" ++ "Main" ++ ": " ++
        concatAll (initialCtx.menu.enum.map (renderItem initialCtx.selection)) ∧
    (showMenu "Main" initialCtx).1.newline = false ∧
    initialCtx.menu.enum.countP (fun x => decide ((x.1 : Int) = initialCtx.selection)) = 1 ∧
    (concatAll (showMenu "Main" initialCtx).2).data.getLast? ≠ some '\n' :=
  showMenu_renders_single_line "Main" initialCtx (by decide) (by decide)

end ProxMenu
